import Mathlib

/-!
Verification of the training orchestration core of src/train.py.

The file shallowly embeds the orchestration logic of the repository:
the epoch/batch loop of train (lines 109-160), the inline ETA
computation (lines 143-144), the evaluate pass (lines 163-181), and the
setup that combines pretrained-weight loading with checkpoint resuming
(lines 109-114).  Abstracted collaborators (model forward/backward, the
optimizer update, the scheduler, the decoders and error-rate metrics)
are represented by the scalar values they feed into the orchestrator and
by counters recording how often they are invoked.
-/

/-- One training minibatch, abstracted to the two scalars the epoch loop
consumes from it: the scalar CTC loss of the batch (line 128, float(loss))
and the measured wall-clock duration of the step in milliseconds
(line 134, (time.time() - start) * 1000). -/
structure Batch where
  loss : ℚ
  duration : ℚ

/-- One log record emitted by the reporting branch (lines 141-151):
the epoch and batch indices, the sizes of the loss and duration windows
the averages are computed over, the running-average loss, the remaining
step count max_step - train_step, and the ETA value in seconds before
truncation (line 143). -/
structure Report where
  epochId : ℕ
  batchId : ℕ
  lossLen : ℕ
  timesLen : ℕ
  trainLoss : ℚ
  remaining : ℤ
  etaSec : ℚ

/-- The mutable state of the train function: the global step counter
train_step (line 119), invocation counters for the abstracted collaborators
(optimizer.step, scheduler.step, evaluate, save_checkpoint), the
running windows loss_sum and train_times (lines 122, 133-134, 151), the
log records emitted so far, and the epoch indices the loop has run. -/
structure TrainState where
  trainStep : ℕ
  optSteps : ℕ
  schedSteps : ℕ
  evals : ℕ
  saves : ℕ
  lossSum : List ℚ
  trainTimes : List ℚ
  reports : List Report
  epochsRun : List ℕ

/-- State at line 119: all counters zero, all windows and logs empty. -/
def initState : TrainState :=
  { trainStep := 0, optSteps := 0, schedSteps := 0, evals := 0, saves := 0
    lossSum := [], trainTimes := [], reports := [], epochsRun := [] }

/-- Body of the inner batch loop (lines 126-152): optimizer step,
gradient clear, scheduler step, append loss and duration to the running
windows, increment train_step, and, when batch_id % 100 == 0, emit one
log record with the running-average loss and the ETA computed from the
running-average duration and max_step - train_step, then reset both
windows (lines 141-151). -/
def trainBatch (maxStep epochId batchId : ℕ) (b : Batch) (s : TrainState) : TrainState :=
  let lossSum := s.lossSum ++ [b.loss]
  let trainTimes := s.trainTimes ++ [b.duration]
  let trainStep := s.trainStep + 1
  let s1 : TrainState :=
    { s with
      optSteps := s.optSteps + 1
      schedSteps := s.schedSteps + 1
      lossSum := lossSum
      trainTimes := trainTimes
      trainStep := trainStep }
  if batchId % 100 = 0 then
    { s1 with
      reports := s1.reports ++
        [{ epochId := epochId
           batchId := batchId
           lossLen := lossSum.length
           timesLen := trainTimes.length
           trainLoss := lossSum.sum / (lossSum.length : ℚ)
           remaining := (maxStep : ℤ) - (trainStep : ℤ)
           etaSec := trainTimes.sum / (trainTimes.length : ℚ) *
             (((maxStep : ℤ) - (trainStep : ℤ) : ℤ) : ℚ) / 1000 }]
      lossSum := []
      trainTimes := [] }
  else s1

/-- The enumerate(train_loader()) loop of line 125: consume the batches
in order, numbering them from the given first batch index. -/
def runBatches (maxStep epochId : ℕ) : ℕ → List Batch → TrainState → TrainState
  | _, [], s => s
  | batchId, b :: bs, s =>
      runBatches maxStep epochId (batchId + 1) bs (trainBatch maxStep epochId batchId b s)

/-- One iteration of the epoch loop (lines 122-160): reset the running
windows, consume every batch the train source yields this epoch, then
run the evaluation pass on the test loader and save a checkpoint
(lines 155-160), recording the epoch index as executed. -/
def trainEpoch (maxStep epochId : ℕ) (bs : List Batch) (s : TrainState) : TrainState :=
  let s0 : TrainState := { s with lossSum := [], trainTimes := [] }
  let s1 := runBatches maxStep epochId 0 bs s0
  { s1 with
    evals := s1.evals + 1
    saves := s1.saves + 1
    epochsRun := s1.epochsRun ++ [epochId] }

/-- The epoch loop of train (lines 119-160): max_step is
len(train_loader) * (num_epoch - last_epoch) (line 120), and the loop
runs over range(last_epoch, num_epoch) (line 121).  The batches argument
gives, for each epoch index, the batches the train source actually
yields in that epoch (which may differ from loaderLen, e.g. an empty
epoch). -/
def trainRun (loaderLen lastEpoch numEpoch : ℕ) (batches : ℕ → List Batch) : TrainState :=
  (List.range' lastEpoch (numEpoch - lastEpoch)).foldl
    (fun s e => trainEpoch (loaderLen * (numEpoch - lastEpoch)) e (batches e) s) initState

/-- Python int() applied to a rational: truncation toward zero. -/
def pyInt (q : ℚ) : ℤ := q.num.tdiv q.den

/-- Line 143: train_eta_sec = (sum(train_times) / len(train_times)) *
(max_step - train_step) / 1000, with the remaining step count
max_step - train_step passed as one integer. -/
def trainEtaSec (trainTimes : List ℚ) (remaining : ℤ) : ℚ :=
  trainTimes.sum / (trainTimes.length : ℚ) * (remaining : ℚ) / 1000

/-- Line 144, inner part: int(train_eta_sec), whole seconds. -/
def etaSeconds (trainTimes : List ℚ) (remaining : ℤ) : ℤ :=
  pyInt (trainEtaSec trainTimes remaining)

/-- Two-digit zero padding of a minute or second field, as in the
str(timedelta) rendering. -/
def pad2 (n : ℤ) : String :=
  if n < 10 then "0" ++ toString n else toString n

/-- Python str(datetime.timedelta(seconds=secs)): normalize into days
plus a residue in [0, 86400), render the residue as H:MM:SS, and prepend
the day count when it is nonzero. -/
def strTimedelta (secs : ℤ) : String :=
  let d := Int.ediv secs 86400
  let r := Int.emod secs 86400
  let core := toString (Int.ediv r 3600) ++ ":" ++
    pad2 (Int.emod (Int.ediv r 60) 60) ++ ":" ++ pad2 (Int.emod r 60)
  if d = 0 then core
  else if d = 1 ∨ d = -1 then toString d ++ " day, " ++ core
  else toString d ++ " days, " ++ core

/-- The hours:minutes:seconds rendering the spec describes for the ETA:
hours = secs / 3600, minutes = (secs / 60) % 60, seconds = secs % 60. -/
def hmsFormat (secs : ℤ) : String :=
  toString (Int.ediv secs 3600) ++ ":" ++
    pad2 (Int.emod (Int.ediv secs 60) 60) ++ ":" ++ pad2 (Int.emod secs 60)

/-- Line 144: eta_str = str(timedelta(seconds=int(train_eta_sec))). -/
def etaStr (trainTimes : List ℚ) (remaining : ℤ) : String :=
  strTimedelta (etaSeconds trainTimes remaining)

/-- The model mode toggled by model.train() and model.eval(). -/
inductive Mode
  | train
  | eval
deriving DecidableEq

/-- One batch of the test loader, abstracted to the per-example error
rates the external wer/cer collaborator returns for it (lines 172-178). -/
structure EvalBatch where
  perExampleErrorRates : List ℚ

/-- Observable outcome of one call of evaluate: the model mode in effect
while each test batch is processed, the mode the model is left in when
the function returns, and the returned error result. -/
structure EvalOutcome where
  modesDuringBatches : List Mode
  modeOnReturn : Mode
  result : ℚ

/-- The evaluate function (lines 163-181): switch the model to eval
mode, process every test batch in that mode collecting the per-example
error rates, form the mean when at least one example was processed and
-1 otherwise (line 179), and switch the model back to train mode
(line 180) before returning. -/
def evaluate (batches : List EvalBatch) : EvalOutcome :=
  let m := Mode.eval
  let modes := batches.map (fun _ => m)
  let errorResults := batches.foldl (fun acc b => acc ++ b.perExampleErrorRates) ([] : List ℚ)
  let errorResult : ℚ :=
    if 0 < errorResults.length then errorResults.sum / (errorResults.length : ℚ) else -1
  { modesDuringBatches := modes, modeOnReturn := Mode.train, result := errorResult }

/-- A checkpoint on durable storage: model weights and optimizer state
(abstracted, identified by tags), the epoch index it was saved with, and the
best error rate recorded so far. -/
structure Checkpoint where
  modelWeights : ℕ
  optimizerState : ℕ
  savedEpoch : ℕ
  bestErrorRate : ℚ

/-- The four pieces of run state fixed by lines 109-114 before the epoch
loop starts: model weights, optimizer state, last_epoch and error_rate. -/
structure RunInit where
  modelWeights : ℕ
  optimizerState : ℕ
  lastEpoch : ℕ
  errorRate : ℚ

/-- Modelled from the spec: utils/checkpoint.py is not under src/.  Per
spec section 4.5, load_checkpoint returns the epoch index at which to
resume, and the loop of line 121 starts its range there with the
just-checkpointed epoch NOT repeated; since save_checkpoint is called
with the finished epoch index (line 159), the resume epoch of a
checkpoint saved at epoch e is e + 1. -/
def load_checkpoint_resume_epoch (savedEpoch : ℕ) : ℕ := savedEpoch + 1

/-- Modelled from the spec: utils/checkpoint.py is not under src/.  Per
spec section 4.5, load_pretrained loads only model weights from the
external path, ignoring optimizer, epoch and metric state entirely. -/
def load_pretrained (weights : ℕ) (st : RunInit) : RunInit :=
  { st with modelWeights := weights }

/-- Modelled from the spec: utils/checkpoint.py is not under src/.  Per
spec section 4.5, load_checkpoint restores model weights and optimizer
state from the checkpoint and returns the epoch index at which to resume
together with the previously recorded best error rate (line 114 binds
all four). -/
def load_checkpoint (ck : Checkpoint) (_st : RunInit) : RunInit :=
  { modelWeights := ck.modelWeights
    optimizerState := ck.optimizerState
    lastEpoch := load_checkpoint_resume_epoch ck.savedEpoch
    errorRate := ck.bestErrorRate }

/-- Lines 109-114 of train: start from freshly constructed model and
optimizer, apply load_pretrained when a pretrained path is supplied
(lines 109-110), take the defaults last_epoch = 0 and error_rate = 1
(line 112), then apply load_checkpoint when a resume path is supplied
(lines 113-114), which rebinds all four pieces of state. -/
def setupRun (pretrained : Option ℕ) (resume : Option Checkpoint)
    (freshWeights freshOpt : ℕ) : RunInit :=
  let st : RunInit :=
    { modelWeights := freshWeights, optimizerState := freshOpt, lastEpoch := 0, errorRate := 1 }
  let st := match pretrained with
    | some w => load_pretrained w st
    | none => st
  match resume with
  | some ck => load_checkpoint ck st
  | none => st

/-! ## Helper lemmas about the batch and epoch steps -/

theorem list_getD_mem {α : Type _} (l : List α) (n : ℕ) (d : α) (h : n < l.length) :
    l.getD n d ∈ l := by
  induction l generalizing n with
  | nil => simp at h
  | cons a l ih =>
      cases n with
      | zero => simp [List.getD]
      | succ n =>
          simp only [List.getD_cons_succ]
          exact List.mem_cons_of_mem a (ih n (Nat.lt_of_succ_lt_succ h))

theorem trainBatch_trainStep (m e i : ℕ) (b : Batch) (s : TrainState) :
    (trainBatch m e i b s).trainStep = s.trainStep + 1 := by
  unfold trainBatch
  split <;> rfl

theorem trainBatch_schedSteps (m e i : ℕ) (b : Batch) (s : TrainState) :
    (trainBatch m e i b s).schedSteps = s.schedSteps + 1 := by
  unfold trainBatch
  split <;> rfl

theorem trainBatch_optSteps (m e i : ℕ) (b : Batch) (s : TrainState) :
    (trainBatch m e i b s).optSteps = s.optSteps + 1 := by
  unfold trainBatch
  split <;> rfl

theorem trainBatch_saves (m e i : ℕ) (b : Batch) (s : TrainState) :
    (trainBatch m e i b s).saves = s.saves := by
  unfold trainBatch
  split <;> rfl

theorem trainBatch_evals (m e i : ℕ) (b : Batch) (s : TrainState) :
    (trainBatch m e i b s).evals = s.evals := by
  unfold trainBatch
  split <;> rfl

theorem trainBatch_epochsRun (m e i : ℕ) (b : Batch) (s : TrainState) :
    (trainBatch m e i b s).epochsRun = s.epochsRun := by
  unfold trainBatch
  split <;> rfl

theorem runBatches_trainStep (m e : ℕ) (bs : List Batch) :
    ∀ (i : ℕ) (s : TrainState),
      (runBatches m e i bs s).trainStep = s.trainStep + bs.length := by
  induction bs with
  | nil => intro i s; simp [runBatches]
  | cons b bs ih =>
      intro i s
      rw [runBatches, ih, trainBatch_trainStep]
      simp [Nat.add_assoc, Nat.add_comm 1 bs.length]

theorem runBatches_schedSteps (m e : ℕ) (bs : List Batch) :
    ∀ (i : ℕ) (s : TrainState),
      (runBatches m e i bs s).schedSteps = s.schedSteps + bs.length := by
  induction bs with
  | nil => intro i s; simp [runBatches]
  | cons b bs ih =>
      intro i s
      rw [runBatches, ih, trainBatch_schedSteps]
      simp [Nat.add_assoc, Nat.add_comm 1 bs.length]

theorem runBatches_optSteps (m e : ℕ) (bs : List Batch) :
    ∀ (i : ℕ) (s : TrainState),
      (runBatches m e i bs s).optSteps = s.optSteps + bs.length := by
  induction bs with
  | nil => intro i s; simp [runBatches]
  | cons b bs ih =>
      intro i s
      rw [runBatches, ih, trainBatch_optSteps]
      simp [Nat.add_assoc, Nat.add_comm 1 bs.length]

theorem runBatches_saves (m e : ℕ) (bs : List Batch) :
    ∀ (i : ℕ) (s : TrainState), (runBatches m e i bs s).saves = s.saves := by
  induction bs with
  | nil => intro i s; simp [runBatches]
  | cons b bs ih =>
      intro i s
      rw [runBatches, ih, trainBatch_saves]

theorem runBatches_evals (m e : ℕ) (bs : List Batch) :
    ∀ (i : ℕ) (s : TrainState), (runBatches m e i bs s).evals = s.evals := by
  induction bs with
  | nil => intro i s; simp [runBatches]
  | cons b bs ih =>
      intro i s
      rw [runBatches, ih, trainBatch_evals]

theorem runBatches_epochsRun (m e : ℕ) (bs : List Batch) :
    ∀ (i : ℕ) (s : TrainState), (runBatches m e i bs s).epochsRun = s.epochsRun := by
  induction bs with
  | nil => intro i s; simp [runBatches]
  | cons b bs ih =>
      intro i s
      rw [runBatches, ih, trainBatch_epochsRun]

theorem trainEpoch_trainStep (m e : ℕ) (bs : List Batch) (s : TrainState) :
    (trainEpoch m e bs s).trainStep = s.trainStep + bs.length := by
  simp [trainEpoch, runBatches_trainStep]

theorem trainEpoch_schedSteps (m e : ℕ) (bs : List Batch) (s : TrainState) :
    (trainEpoch m e bs s).schedSteps = s.schedSteps + bs.length := by
  simp [trainEpoch, runBatches_schedSteps]

theorem trainEpoch_optSteps (m e : ℕ) (bs : List Batch) (s : TrainState) :
    (trainEpoch m e bs s).optSteps = s.optSteps + bs.length := by
  simp [trainEpoch, runBatches_optSteps]

theorem trainEpoch_saves (m e : ℕ) (bs : List Batch) (s : TrainState) :
    (trainEpoch m e bs s).saves = s.saves + 1 := by
  simp [trainEpoch, runBatches_saves]

theorem trainEpoch_evals (m e : ℕ) (bs : List Batch) (s : TrainState) :
    (trainEpoch m e bs s).evals = s.evals + 1 := by
  simp [trainEpoch, runBatches_evals]

theorem trainEpoch_epochsRun (m e : ℕ) (bs : List Batch) (s : TrainState) :
    (trainEpoch m e bs s).epochsRun = s.epochsRun ++ [e] := by
  simp [trainEpoch, runBatches_epochsRun]

theorem foldEpochs_epochsRun (M : ℕ) (batches : ℕ → List Batch) (es : List ℕ) :
    ∀ (s : TrainState),
      ((es.foldl (fun s e => trainEpoch M e (batches e) s) s)).epochsRun
        = s.epochsRun ++ es := by
  induction es with
  | nil => intro s; simp
  | cons e es ih =>
      intro s
      simp only [List.foldl_cons]
      rw [ih, trainEpoch_epochsRun]
      simp

theorem foldEpochs_saves (M : ℕ) (batches : ℕ → List Batch) (es : List ℕ) :
    ∀ (s : TrainState),
      ((es.foldl (fun s e => trainEpoch M e (batches e) s) s)).saves
        = s.saves + es.length := by
  induction es with
  | nil => intro s; simp
  | cons e es ih =>
      intro s
      simp only [List.foldl_cons]
      rw [ih, trainEpoch_saves]
      simp [Nat.add_assoc, Nat.add_comm 1 es.length]

theorem foldEpochs_evals (M : ℕ) (batches : ℕ → List Batch) (es : List ℕ) :
    ∀ (s : TrainState),
      ((es.foldl (fun s e => trainEpoch M e (batches e) s) s)).evals
        = s.evals + es.length := by
  induction es with
  | nil => intro s; simp
  | cons e es ih =>
      intro s
      simp only [List.foldl_cons]
      rw [ih, trainEpoch_evals]
      simp [Nat.add_assoc, Nat.add_comm 1 es.length]

theorem foldEpochs_trainStep (M : ℕ) (batches : ℕ → List Batch) (es : List ℕ) :
    ∀ (s : TrainState),
      ((es.foldl (fun s e => trainEpoch M e (batches e) s) s)).trainStep
        = s.trainStep + (es.map fun e => (batches e).length).sum := by
  induction es with
  | nil => intro s; simp
  | cons e es ih =>
      intro s
      simp only [List.foldl_cons, List.map_cons, List.sum_cons]
      rw [ih, trainEpoch_trainStep]
      omega

theorem foldEpochs_schedSteps (M : ℕ) (batches : ℕ → List Batch) (es : List ℕ) :
    ∀ (s : TrainState),
      ((es.foldl (fun s e => trainEpoch M e (batches e) s) s)).schedSteps
        = s.schedSteps + (es.map fun e => (batches e).length).sum := by
  induction es with
  | nil => intro s; simp
  | cons e es ih =>
      intro s
      simp only [List.foldl_cons, List.map_cons, List.sum_cons]
      rw [ih, trainEpoch_schedSteps]
      omega

theorem trainRun_epochsRun (loaderLen lastEpoch numEpoch : ℕ) (batches : ℕ → List Batch) :
    (trainRun loaderLen lastEpoch numEpoch batches).epochsRun
      = List.range' lastEpoch (numEpoch - lastEpoch) := by
  unfold trainRun
  rw [foldEpochs_epochsRun]
  simp [initState]

/-! ## Claim theorems -/

/-- C1: after loading a checkpoint last saved with epoch index e, the
resumed epoch loop executes exactly the epochs e+1 .. numEpoch-1: its
first epoch is e+1 and the checkpointed epoch e is never re-run. -/
theorem resume_skips_checkpointed_epoch (e numEpoch loaderLen : ℕ)
    (batches : ℕ → List Batch) (h : e + 1 < numEpoch) :
    (trainRun loaderLen (load_checkpoint_resume_epoch e) numEpoch batches).epochsRun
        = List.range' (e + 1) (numEpoch - (e + 1))
    ∧ (trainRun loaderLen (load_checkpoint_resume_epoch e) numEpoch batches).epochsRun.head?
        = some (e + 1)
    ∧ e ∉ (trainRun loaderLen (load_checkpoint_resume_epoch e) numEpoch batches).epochsRun := by
  have hrun : (trainRun loaderLen (load_checkpoint_resume_epoch e) numEpoch batches).epochsRun
      = List.range' (e + 1) (numEpoch - (e + 1)) :=
    trainRun_epochsRun loaderLen (e + 1) numEpoch batches
  refine ⟨hrun, ?_, ?_⟩
  · rw [hrun]
    obtain ⟨k, hk⟩ : ∃ k, numEpoch - (e + 1) = k + 1 := ⟨numEpoch - (e + 1) - 1, by omega⟩
    rw [hk, List.range'_succ]
    rfl
  · rw [hrun]
    intro hmem
    have := List.mem_range'_1.mp hmem
    omega

/-- C1 witness: a checkpoint saved with epoch index 5 and numEpoch = 8
resumes with first epoch 6 and never re-runs epoch 5. -/
theorem resume_skips_checkpointed_epoch_witness :
    5 + 1 < 8
    ∧ ((trainRun 0 (load_checkpoint_resume_epoch 5) 8 (fun _ => [])).epochsRun.head?
          = some (5 + 1)
        ∧ 5 ∉ (trainRun 0 (load_checkpoint_resume_epoch 5) 8 (fun _ => [])).epochsRun) :=
  ⟨by omega, (resume_skips_checkpointed_epoch 5 8 0 (fun _ => []) (by omega)).2⟩

/-- C2: over a train source yielding exactly 3 batches in each of the 2
epochs of a run starting from epoch 0, the final global step counter is
6, the scheduler has been stepped exactly 6 times (once per consumed
batch), and save_checkpoint has been invoked exactly twice. -/
theorem two_epochs_three_batches_counters (batches : ℕ → List Batch)
    (h0 : (batches 0).length = 3) (h1 : (batches 1).length = 3) :
    (trainRun 3 0 2 batches).trainStep = 6
    ∧ (trainRun 3 0 2 batches).schedSteps = 6
    ∧ (trainRun 3 0 2 batches).saves = 2 := by
  have hes : List.range' 0 (2 - 0) = [0, 1] := rfl
  unfold trainRun
  rw [hes]
  refine ⟨?_, ?_, ?_⟩
  · rw [foldEpochs_trainStep]
    simp [initState, h0, h1]
  · rw [foldEpochs_schedSteps]
    simp [initState, h0, h1]
  · rw [foldEpochs_saves]
    simp [initState]

/-- C2 witness: a concrete train source with 3 batches per epoch. -/
theorem two_epochs_three_batches_counters_witness :
    ((fun _ : ℕ => [Batch.mk 0 0, Batch.mk 0 0, Batch.mk 0 0]) 0).length = 3
    ∧ (trainRun 3 0 2 (fun _ => [Batch.mk 0 0, Batch.mk 0 0, Batch.mk 0 0])).trainStep = 6
    ∧ (trainRun 3 0 2 (fun _ => [Batch.mk 0 0, Batch.mk 0 0, Batch.mk 0 0])).schedSteps = 6
    ∧ (trainRun 3 0 2 (fun _ => [Batch.mk 0 0, Batch.mk 0 0, Batch.mk 0 0])).saves = 2 :=
  ⟨rfl,
    (two_epochs_three_batches_counters (fun _ => [Batch.mk 0 0, Batch.mk 0 0, Batch.mk 0 0])
      rfl rfl).1,
    (two_epochs_three_batches_counters (fun _ => [Batch.mk 0 0, Batch.mk 0 0, Batch.mk 0 0])
      rfl rfl).2.1,
    (two_epochs_three_batches_counters (fun _ => [Batch.mk 0 0, Batch.mk 0 0, Batch.mk 0 0])
      rfl rfl).2.2⟩

/-- C4: within an epoch, the batch step emits a log record exactly when
the batch index is a multiple of 100, the emitted record averages the
losses over the window extended with the current batch, and emitting a
record resets both running windows to empty; at every other step no
record is emitted and the windows grow by the current batch. -/
theorem report_cadence_and_reset (maxStep epochId batchId : ℕ) (b : Batch) (s : TrainState) :
    (trainBatch maxStep epochId batchId b s).reports.length
        = s.reports.length + (if batchId % 100 = 0 then 1 else 0)
    ∧ (trainBatch maxStep epochId batchId b s).lossSum
        = (if batchId % 100 = 0 then [] else s.lossSum ++ [b.loss])
    ∧ (trainBatch maxStep epochId batchId b s).trainTimes
        = (if batchId % 100 = 0 then [] else s.trainTimes ++ [b.duration])
    ∧ (trainBatch maxStep epochId batchId b s).reports
        = s.reports ++
          (if batchId % 100 = 0 then
            [{ epochId := epochId
               batchId := batchId
               lossLen := (s.lossSum ++ [b.loss]).length
               timesLen := (s.trainTimes ++ [b.duration]).length
               trainLoss := (s.lossSum ++ [b.loss]).sum / (((s.lossSum ++ [b.loss]).length : ℚ))
               remaining := (maxStep : ℤ) - ((s.trainStep + 1 : ℕ) : ℤ)
               etaSec := (s.trainTimes ++ [b.duration]).sum /
                   (((s.trainTimes ++ [b.duration]).length : ℚ)) *
                   ((((maxStep : ℤ) - ((s.trainStep + 1 : ℕ) : ℤ) : ℤ)) : ℚ) / 1000 }]
          else []) := by
  unfold trainBatch
  split <;> simp_all

theorem trainBatch_window_lens (m e i : ℕ) (b : Batch) (s : TrainState)
    (hs : ∀ r ∈ s.reports, 0 < r.lossLen ∧ 0 < r.timesLen) :
    ∀ r ∈ (trainBatch m e i b s).reports, 0 < r.lossLen ∧ 0 < r.timesLen := by
  unfold trainBatch
  split
  · intro r hr
    simp only [List.mem_append, List.mem_singleton] at hr
    rcases hr with hr | hr
    · exact hs r hr
    · subst hr
      constructor <;> simp
  · exact hs

theorem runBatches_window_lens (m e : ℕ) (bs : List Batch) :
    ∀ (i : ℕ) (s : TrainState),
      (∀ r ∈ s.reports, 0 < r.lossLen ∧ 0 < r.timesLen) →
      ∀ r ∈ (runBatches m e i bs s).reports, 0 < r.lossLen ∧ 0 < r.timesLen := by
  induction bs with
  | nil => intro i s hs; simpa [runBatches] using hs
  | cons b bs ih =>
      intro i s hs
      rw [runBatches]
      exact ih (i + 1) _ (trainBatch_window_lens m e i b s hs)

theorem trainEpoch_window_lens (m e : ℕ) (bs : List Batch) (s : TrainState)
    (hs : ∀ r ∈ s.reports, 0 < r.lossLen ∧ 0 < r.timesLen) :
    ∀ r ∈ (trainEpoch m e bs s).reports, 0 < r.lossLen ∧ 0 < r.timesLen := by
  unfold trainEpoch
  exact runBatches_window_lens m e bs 0 _ hs

theorem foldEpochs_window_lens (M : ℕ) (batches : ℕ → List Batch) (es : List ℕ) :
    ∀ (s : TrainState),
      (∀ r ∈ s.reports, 0 < r.lossLen ∧ 0 < r.timesLen) →
      ∀ r ∈ ((es.foldl (fun s e => trainEpoch M e (batches e) s) s)).reports,
        0 < r.lossLen ∧ 0 < r.timesLen := by
  induction es with
  | nil => intro s hs; simpa using hs
  | cons e es ih =>
      intro s hs
      simp only [List.foldl_cons]
      exact ih _ (trainEpoch_window_lens M e (batches e) s hs)

/-- C8: an epoch whose train source yields zero batches still completes,
running the evaluation pass and writing a checkpoint while emitting no
log record; and in any run, every log record averages over non-empty
loss and duration windows, so no reporting computation divides by the
size of an empty window. -/
theorem empty_epoch_completes_and_windows_nonempty (maxStep epochId : ℕ) (s : TrainState)
    (loaderLen lastEpoch numEpoch : ℕ) (batches : ℕ → List Batch) :
    (trainEpoch maxStep epochId [] s).evals = s.evals + 1
    ∧ (trainEpoch maxStep epochId [] s).saves = s.saves + 1
    ∧ (trainEpoch maxStep epochId [] s).reports = s.reports
    ∧ ∀ r ∈ (trainRun loaderLen lastEpoch numEpoch batches).reports,
        0 < r.lossLen ∧ 0 < r.timesLen := by
  refine ⟨trainEpoch_evals _ _ _ _, trainEpoch_saves _ _ _ _, ?_, ?_⟩
  · simp [trainEpoch, runBatches]
  · unfold trainRun
    exact foldEpochs_window_lens _ batches _ initState (by simp [initState])

/-- C8 witness: in a one-epoch run with a single batch, the emitted log
record averages over windows of positive size. -/
theorem empty_epoch_completes_and_windows_nonempty_witness :
    (trainEpoch 0 0 [] initState).saves = 0 + 1
    ∧ 0 < ((trainRun 1 0 1 (fun _ => [Batch.mk 2 1000])).reports.getD 0
          { epochId := 0, batchId := 0, lossLen := 0, timesLen := 0
            trainLoss := 0, remaining := 0, etaSec := 0 }).lossLen
    ∧ 0 < ((trainRun 1 0 1 (fun _ => [Batch.mk 2 1000])).reports.getD 0
          { epochId := 0, batchId := 0, lossLen := 0, timesLen := 0
            trainLoss := 0, remaining := 0, etaSec := 0 }).timesLen := by
  have hlen : 0 < (trainRun 1 0 1 (fun _ => [Batch.mk 2 1000])).reports.length := by decide
  have hmem := list_getD_mem (trainRun 1 0 1 (fun _ => [Batch.mk 2 1000])).reports 0
    { epochId := 0, batchId := 0, lossLen := 0, timesLen := 0
      trainLoss := 0, remaining := 0, etaSec := 0 } hlen
  have h := (empty_epoch_completes_and_windows_nonempty 0 0 initState
    1 0 1 (fun _ => [Batch.mk 2 1000]))
  exact ⟨h.2.1, (h.2.2.2 _ hmem).1, (h.2.2.2 _ hmem).2⟩

theorem trainBatch_eta_nonneg (m e i : ℕ) (b : Batch) (s : TrainState)
    (hw : ∀ t ∈ s.trainTimes, 0 ≤ t) (hb : 0 ≤ b.duration)
    (hstep : s.trainStep + 1 ≤ m)
    (hs : ∀ r ∈ s.reports, 0 ≤ r.remaining ∧ 0 ≤ r.etaSec) :
    (∀ t ∈ (trainBatch m e i b s).trainTimes, 0 ≤ t)
    ∧ ∀ r ∈ (trainBatch m e i b s).reports, 0 ≤ r.remaining ∧ 0 ≤ r.etaSec := by
  have hw1 : ∀ t ∈ s.trainTimes ++ [b.duration], 0 ≤ t := by
    intro t ht
    rcases List.mem_append.mp ht with ht | ht
    · exact hw t ht
    · simp only [List.mem_singleton] at ht
      exact ht ▸ hb
  have hrem : (0 : ℤ) ≤ (m : ℤ) - ((s.trainStep + 1 : ℕ) : ℤ) := by
    have := hstep
    omega
  unfold trainBatch
  split
  · refine ⟨by simp, ?_⟩
    intro r hr
    simp only [List.mem_append, List.mem_singleton] at hr
    rcases hr with hr | hr
    · exact hs r hr
    · subst hr
      refine ⟨hrem, ?_⟩
      have hsum : (0 : ℚ) ≤ (s.trainTimes ++ [b.duration]).sum := List.sum_nonneg hw1
      have hcast : (0 : ℚ) ≤ (((m : ℤ) - ((s.trainStep + 1 : ℕ) : ℤ) : ℤ) : ℚ) := by
        exact_mod_cast hrem
      have hlen : (0 : ℚ) ≤ ((s.trainTimes ++ [b.duration]).length : ℚ) := by positivity
      refine div_nonneg (mul_nonneg (div_nonneg hsum hlen) hcast) (by norm_num)
  · exact ⟨hw1, hs⟩

theorem runBatches_eta_nonneg (m e : ℕ) (bs : List Batch) :
    ∀ (i : ℕ) (s : TrainState),
      (∀ t ∈ s.trainTimes, 0 ≤ t) →
      (∀ b ∈ bs, 0 ≤ b.duration) →
      s.trainStep + bs.length ≤ m →
      (∀ r ∈ s.reports, 0 ≤ r.remaining ∧ 0 ≤ r.etaSec) →
      ∀ r ∈ (runBatches m e i bs s).reports, 0 ≤ r.remaining ∧ 0 ≤ r.etaSec := by
  induction bs with
  | nil => intro i s _ _ _ hs; simpa [runBatches] using hs
  | cons b bs ih =>
      intro i s hw hbs hstep hs
      rw [runBatches]
      have hstep1 : s.trainStep + 1 ≤ m := by
        simp only [List.length_cons] at hstep
        omega
      have hb := trainBatch_eta_nonneg m e i b s hw (hbs b (List.mem_cons_self b bs)) hstep1 hs
      refine ih (i + 1) _ hb.1 (fun x hx => hbs x (List.mem_cons_of_mem b hx)) ?_ hb.2
      rw [trainBatch_trainStep]
      simp only [List.length_cons] at hstep
      omega

theorem trainEpoch_eta_nonneg (m e : ℕ) (bs : List Batch) (s : TrainState)
    (hbs : ∀ b ∈ bs, 0 ≤ b.duration)
    (hstep : s.trainStep + bs.length ≤ m)
    (hs : ∀ r ∈ s.reports, 0 ≤ r.remaining ∧ 0 ≤ r.etaSec) :
    ∀ r ∈ (trainEpoch m e bs s).reports, 0 ≤ r.remaining ∧ 0 ≤ r.etaSec := by
  unfold trainEpoch
  exact runBatches_eta_nonneg m e bs 0 _ (by simp) hbs hstep hs

theorem foldEpochs_eta_nonneg (M : ℕ) (batches : ℕ → List Batch) (es : List ℕ) :
    ∀ (s : TrainState),
      (∀ e ∈ es, ∀ b ∈ batches e, 0 ≤ b.duration) →
      s.trainStep + (es.map fun e => (batches e).length).sum ≤ M →
      (∀ r ∈ s.reports, 0 ≤ r.remaining ∧ 0 ≤ r.etaSec) →
      ∀ r ∈ ((es.foldl (fun s e => trainEpoch M e (batches e) s) s)).reports,
        0 ≤ r.remaining ∧ 0 ≤ r.etaSec := by
  induction es with
  | nil => intro s _ _ hs; simpa using hs
  | cons e es ih =>
      intro s hdur hstep hs
      simp only [List.foldl_cons]
      simp only [List.map_cons, List.sum_cons] at hstep
      have hepoch := trainEpoch_eta_nonneg M e (batches e) s
        (hdur e (List.mem_cons_self e es)) (by omega) hs
      refine ih _ (fun x hx => hdur x (List.mem_cons_of_mem e hx)) ?_ hepoch
      rw [trainEpoch_trainStep]
      omega

/-- C10: when every epoch yields exactly loaderLen batches (and step
durations are non-negative wall-clock measurements), the remaining step
count max_step - train_step recorded at every reporting point of the run
is non-negative, hence so is the computed ETA value, even though the
code has no explicit guard. -/
theorem remaining_nonneg_at_reports (loaderLen lastEpoch numEpoch : ℕ)
    (batches : ℕ → List Batch)
    (hlen : ∀ e, (batches e).length = loaderLen)
    (hdur : ∀ e, ∀ b ∈ batches e, 0 ≤ b.duration) :
    ∀ r ∈ (trainRun loaderLen lastEpoch numEpoch batches).reports,
      0 ≤ r.remaining ∧ 0 ≤ r.etaSec := by
  unfold trainRun
  refine foldEpochs_eta_nonneg _ batches _ initState (fun e _ => hdur e) ?_ (by simp [initState])
  simp only [hlen, initState, List.map_const', List.sum_replicate, smul_eq_mul,
    List.length_range']
  rw [Nat.mul_comm]
  omega

/-- C10 witness: a one-epoch run with one batch reports remaining step
count zero and ETA zero, both non-negative. -/
theorem remaining_nonneg_at_reports_witness :
    0 ≤ ((trainRun 1 0 1 (fun _ => [Batch.mk 0 5])).reports.getD 0
          { epochId := 0, batchId := 0, lossLen := 0, timesLen := 0
            trainLoss := 0, remaining := 0, etaSec := 0 }).remaining
    ∧ 0 ≤ ((trainRun 1 0 1 (fun _ => [Batch.mk 0 5])).reports.getD 0
          { epochId := 0, batchId := 0, lossLen := 0, timesLen := 0
            trainLoss := 0, remaining := 0, etaSec := 0 }).etaSec := by
  have hlen : 0 < (trainRun 1 0 1 (fun _ => [Batch.mk 0 5])).reports.length := by decide
  have hmem := list_getD_mem (trainRun 1 0 1 (fun _ => [Batch.mk 0 5])).reports 0
    { epochId := 0, batchId := 0, lossLen := 0, timesLen := 0
      trainLoss := 0, remaining := 0, etaSec := 0 } hlen
  have h := remaining_nonneg_at_reports 1 0 1 (fun _ => [Batch.mk 0 5])
    (fun _ => rfl) (fun _ b hb => by
      simp only [List.mem_singleton] at hb
      subst hb
      norm_num)
  exact ⟨(h _ hmem).1, (h _ hmem).2⟩

/-- C3: on an eval source yielding zero batches (hence zero examples),
evaluate returns exactly -1 instead of failing, and the model is back in
training mode when it returns. -/
theorem evaluate_empty_source :
    (evaluate []).result = -1 ∧ (evaluate []).modeOnReturn = Mode.train :=
  ⟨rfl, rfl⟩

/-- C7: in every execution of evaluate that returns, the model is in
inference mode while each test batch is processed and is restored to
training mode before the function returns. -/
theorem evaluate_mode_discipline (batches : List EvalBatch) :
    (∀ m ∈ (evaluate batches).modesDuringBatches, m = Mode.eval)
    ∧ (evaluate batches).modeOnReturn = Mode.train := by
  constructor
  · intro m hm
    simp only [evaluate, List.mem_map] at hm
    obtain ⟨_, _, h⟩ := hm
    exact h.symm
  · rfl

/-- C7 witness: for a one-batch eval source, the batch is processed in
inference mode and the model is in training mode on return. -/
theorem evaluate_mode_discipline_witness :
    (evaluate [{ perExampleErrorRates := [0] }]).modesDuringBatches.getD 0 Mode.train
        = Mode.eval
    ∧ (evaluate [{ perExampleErrorRates := [0] }]).modeOnReturn = Mode.train :=
  ⟨(evaluate_mode_discipline [{ perExampleErrorRates := [0] }]).1 _
      (list_getD_mem _ 0 _ (by decide)),
    (evaluate_mode_discipline [{ perExampleErrorRates := [0] }]).2⟩

/-- C9: when both a pretrained-model path and a resume checkpoint are
supplied, resume takes precedence: the setup produces exactly the state
restored from the checkpoint (weights, optimizer state, starting epoch
and best error rate), identical to the setup without any pretrained
path, so the pretrained load affects none of it. -/
theorem resume_precedence_over_pretrained (w : ℕ) (ck : Checkpoint) (fw fo : ℕ) :
    setupRun (some w) (some ck) fw fo = setupRun none (some ck) fw fo
    ∧ (setupRun (some w) (some ck) fw fo).modelWeights = ck.modelWeights
    ∧ (setupRun (some w) (some ck) fw fo).optimizerState = ck.optimizerState
    ∧ (setupRun (some w) (some ck) fw fo).lastEpoch
        = load_checkpoint_resume_epoch ck.savedEpoch
    ∧ (setupRun (some w) (some ck) fw fo).errorRate = ck.bestErrorRate :=
  ⟨rfl, rfl, rfl, rfl, rfl⟩

/-- C5 counterexample: the ETA computation of lines 143-144 has no guard
for a negative remaining step count: with one recorded duration of 1000
milliseconds and remaining step count -1, the computed ETA is the
negative value -1, not zero. -/
theorem eta_negative_without_guard :
    trainEtaSec [1000] (-1) < 0 ∧ pyInt (trainEtaSec [1000] (-1)) = -1 := by
  have h : trainEtaSec [1000] (-1) = -1 := by
    norm_num [trainEtaSec]
  refine ⟨by rw [h]; norm_num, by rw [h]; decide⟩

/-- C5 amended: with remaining step count exactly zero the computed ETA
is zero; the code has no clamp, so only the zero case of the claimed
edge-case behavior holds. -/
theorem eta_zero_remaining (ts : List ℚ) :
    trainEtaSec ts 0 = 0 ∧ pyInt (trainEtaSec ts 0) = 0 := by
  have h : trainEtaSec ts 0 = 0 := by
    simp [trainEtaSec]
  exact ⟨h, by rw [h]; decide⟩

theorem strTimedelta_eq_hms (n : ℤ) (h0 : 0 ≤ n) (hlt : n < 86400) :
    strTimedelta n = hmsFormat n := by
  have hd : Int.ediv n 86400 = 0 := Int.ediv_eq_zero_of_lt h0 hlt
  have hm : Int.emod n 86400 = n := Int.emod_eq_of_lt h0 hlt
  simp only [strTimedelta, hmsFormat, hd, hm]
  simp

/-- C6 counterexample: the rendering of line 144 is str(timedelta), not
plain hours:minutes:seconds for every remaining step count.  With one
recorded duration of 1000 milliseconds and remaining step count 90000
the ETA is 90000 seconds, which the code renders as "1 day, 1:00:00"
while the hours:minutes:seconds rendering of 90000 seconds is
"25:00:00"; and with remaining step count -1 the code renders
"-1 day, 23:59:59". -/
theorem eta_day_rendering_counterexample :
    etaSeconds [1000] 90000 = 90000
    ∧ etaStr [1000] 90000 = "1 day, 1:00:00"
    ∧ hmsFormat (etaSeconds [1000] 90000) = "25:00:00"
    ∧ etaStr [1000] 90000 ≠ hmsFormat (etaSeconds [1000] 90000)
    ∧ etaStr [1000] (-1) = "-1 day, 23:59:59" := by
  have hval : trainEtaSec [1000] 90000 = 90000 := by
    norm_num [trainEtaSec]
  have h9 : etaSeconds [1000] 90000 = 90000 := by
    unfold etaSeconds
    rw [hval]
    decide
  have hvaln : trainEtaSec [1000] (-1) = -1 := by
    norm_num [trainEtaSec]
  have hn : etaSeconds [1000] (-1) = -1 := by
    unfold etaSeconds
    rw [hvaln]
    decide
  refine ⟨h9, ?_, ?_, ?_, ?_⟩
  · show strTimedelta (etaSeconds [1000] 90000) = "1 day, 1:00:00"
    rw [h9]
    decide
  · rw [h9]
    decide
  · show strTimedelta (etaSeconds [1000] 90000) ≠ hmsFormat (etaSeconds [1000] 90000)
    rw [h9]
    decide
  · show strTimedelta (etaSeconds [1000] (-1)) = "-1 day, 23:59:59"
    rw [hn]
    decide

/-- C6 amended: for every non-empty duration window and every remaining
step count, the ETA of lines 143-144 is mean(durations) * remaining /
1000 seconds truncated toward zero whole seconds; it is rendered as
hours:minutes:seconds exactly when that value is non-negative and below
one day (otherwise str(timedelta) prepends a day count); in particular
three durations of 1000 milliseconds with 10 remaining steps give 10
seconds, rendered 0:00:10. -/
theorem eta_formula_and_format (ts : List ℚ) (r : ℤ) (_hne : ts ≠ []) :
    etaSeconds ts r = pyInt (ts.sum / (ts.length : ℚ) * (r : ℚ) / 1000)
    ∧ (0 ≤ etaSeconds ts r → etaSeconds ts r < 86400 →
        etaStr ts r = hmsFormat (etaSeconds ts r))
    ∧ etaSeconds [1000, 1000, 1000] 10 = 10
    ∧ etaStr [1000, 1000, 1000] 10 = "0:00:10" := by
  have hval : trainEtaSec [1000, 1000, 1000] 10 = 10 := by
    norm_num [trainEtaSec]
  have h10 : etaSeconds [1000, 1000, 1000] 10 = 10 := by
    unfold etaSeconds
    rw [hval]
    decide
  refine ⟨rfl, fun h0 hlt => strTimedelta_eq_hms _ h0 hlt, h10, ?_⟩
  show strTimedelta (etaSeconds [1000, 1000, 1000] 10) = "0:00:10"
  rw [h10]
  decide

/-- C6 witness: the amended formula and rendering instantiated at the
window [1000, 1000, 1000] with 10 remaining steps, whose ETA of 10
seconds lies inside the hours:minutes:seconds range. -/
theorem eta_formula_and_format_witness :
    (([1000, 1000, 1000] : List ℚ) ≠ []
      ∧ 0 ≤ etaSeconds [1000, 1000, 1000] 10
      ∧ etaSeconds [1000, 1000, 1000] 10 < 86400)
    ∧ etaStr [1000, 1000, 1000] 10 = hmsFormat (etaSeconds [1000, 1000, 1000] 10)
    ∧ etaSeconds [1000, 1000, 1000] 10 = 10
    ∧ etaStr [1000, 1000, 1000] 10 = "0:00:10" := by
  have hval : trainEtaSec [1000, 1000, 1000] 10 = 10 := by
    norm_num [trainEtaSec]
  have h10 : etaSeconds [1000, 1000, 1000] 10 = 10 := by
    unfold etaSeconds
    rw [hval]
    decide
  have hne : ([1000, 1000, 1000] : List ℚ) ≠ [] := by simp
  have h0 : 0 ≤ etaSeconds [1000, 1000, 1000] 10 := by rw [h10]; decide
  have hlt : etaSeconds [1000, 1000, 1000] 10 < 86400 := by rw [h10]; decide
  have h := eta_formula_and_format [1000, 1000, 1000] 10 hne
  exact ⟨⟨hne, h0, hlt⟩, h.2.1 h0 hlt, h.2.2.1, h.2.2.2⟩
